import Mathlib

/-!
Shallow embedding of the hierarchical FSM engine (`fsm.go`).

States and triggers are dense unsigned integers in Go (`S, T ~uint`); they are
modelled as `Nat`. The data argument is an opaque type `D`. Guards, actions and
state hooks are Go functions returning `error`; they are modelled as functions
`D → Option E` where `none` means success and `some e` carries the error value
(`E` abstract). Side effects of hooks are modelled by an explicit trace of
events recorded in invocation order.

Go slices indexed out of range panic; the model uses `List.getD` with the
zero-value default (`Valid = false`, no hooks, no parent), which agrees with
the source on every in-range access. The bubbling loop of `Machine.Fire` is
unbounded in the source (it follows parent pointers until nil); it is modelled
with explicit fuel, and fuel exhaustion is a distinguished outcome so that
termination within the depth bound is provable, not assumed.
-/

namespace FSM

/-- The `maxDepth` constant from `fsm.go`. -/
def maxDepth : Nat := 10

/-- Events observable during a `Fire` call: each hook or action invocation is
recorded in order. -/
inductive Event where
  | exit (state : Nat)
  | action
  | entry (state : Nat)
  deriving DecidableEq

/-- The `Transition` struct from `fsm.go` (descriptions kept; they have no
behavioural effect). -/
structure Transition (E D : Type) where
  Valid : Bool
  Next : Nat
  Guard : Option (D → Option E)
  GuardDescription : String
  Action : Option (D → Option E)
  ActionDescription : String

/-- The zero value of `Transition`, used by Go for undefined table entries. -/
def Transition.invalid (E D : Type) : Transition E D :=
  ⟨false, 0, none, "", none, ""⟩

/-- The `StateHooks` struct from `fsm.go`. -/
structure StateHooks (E D : Type) where
  OnEntry : Option (D → Option E)
  OnExit : Option (D → Option E)

/-- The zero value of `StateHooks`. -/
def StateHooks.empty (E D : Type) : StateHooks E D := ⟨none, none⟩

/-- The `transitionIndex` function from `fsm.go`: flat index into the transition table. -/
def transitionIndex (fromState trigger numTrigger : Nat) : Nat :=
  fromState * numTrigger + trigger

/-- The `Spec` struct from `fsm.go`: the immutable specification. `stateParents`
and `initialStates` are `[]*S` in Go (nil = absent), modelled with
`Option Nat` entries. -/
structure Spec (E D : Type) where
  stateCount : Nat
  triggerCount : Nat
  transitions : List (Transition E D)
  stateHooks : List (StateHooks E D)
  stateParents : List (Option Nat)
  initialStates : List (Option Nat)

variable {E D : Type}

/-- The table lookup done by `Machine.findTransition` (before its `Valid`
check): `m.spec.transitions[transitionIndex(state, trigger, triggerCount)]`. -/
def Spec.transitionAt (spec : Spec E D) (state trigger : Nat) : Transition E D :=
  spec.transitions.getD (transitionIndex state trigger spec.triggerCount)
    (Transition.invalid E D)

/-- Lookup `m.spec.stateHooks[state]`. -/
def Spec.hooksOf (spec : Spec E D) (state : Nat) : StateHooks E D :=
  spec.stateHooks.getD state (StateHooks.empty E D)

/-- Lookup `m.spec.stateParents[state]` (nil pointer = `none`). -/
def Spec.parentOf (spec : Spec E D) (state : Nat) : Option Nat :=
  spec.stateParents.getD state none

/-- Lookup `m.spec.initialStates[state]` (nil pointer = `none`). -/
def Spec.initialOf (spec : Spec E D) (state : Nat) : Option Nat :=
  spec.initialStates.getD state none

/-- The loop body of `Machine.readHierarchy`: follow parent pointers for at
most `fuel` steps, collecting visited states leaf-first. -/
def readHierarchyAux (spec : Spec E D) : Nat → Nat → List Nat
  | _, 0 => []
  | s, fuel + 1 =>
    s :: (match spec.parentOf s with
      | some p => readHierarchyAux spec p fuel
      | none => [])

/-- Function `Machine.readHierarchy`: the ancestor chain of `fromState`, leaf first,
truncated at `maxDepth` entries. -/
def Spec.readHierarchy (spec : Spec E D) (fromState : Nat) : List Nat :=
  readHierarchyAux spec fromState maxDepth

/-- Outcome of the bubbling search loop at the top of `Machine.Fire`. The
source loop is unbounded; `outOfFuel` marks fuel exhaustion in the model. -/
inductive SearchOutcome (E D : Type) where
  | found (matchedState : Nat) (trans : Transition E D)
  | notFound
  | outOfFuel

/-- The bubbling search of `Machine.Fire` / `Machine.CanFire`: look up the
transition at the current state; on an invalid entry move to the declared
parent and retry; with no parent report not-found. -/
def bubble (spec : Spec E D) (trigger : Nat) : Nat → Nat → SearchOutcome E D
  | _, 0 => .outOfFuel
  | state, fuel + 1 =>
    let trans := spec.transitionAt state trigger
    if trans.Valid then .found state trans
    else
      match spec.parentOf state with
      | some p => bubble spec trigger p fuel
      | none => .notFound

/-- The inner loop of the LCA scan in `Machine.Fire`: the first index `j` at
which `s` occurs in `targetStates`, counting from `j0`. -/
def lcaScanTarget (s : Nat) : List Nat → Nat → Option Nat
  | [], _ => none
  | t :: rest, j => if t = s then some j else lcaScanTarget s rest (j + 1)

/-- The outer loop of the LCA scan: for each source state in turn, scan all of
`targetStates`; the first match is the LCA, paired with its target index. -/
def lcaScan (targetStates : List Nat) : List Nat → Option (Nat × Nat)
  | [] => none
  | s :: rest =>
    match lcaScanTarget s targetStates 0 with
    | some j => some (s, j)
    | none => lcaScan targetStates rest

/-- The LCA computation of `Machine.Fire`: scan `sourceStates` from index 1
(the leaf itself is skipped) against all of `targetStates`. -/
def findLCA (sourceStates targetStates : List Nat) : Option (Nat × Nat) :=
  lcaScan targetStates (sourceStates.drop 1)

/-- Errors returnable by `Machine.Fire`. `notFound` carries the trigger and
the machine's original current state (as in the wrapping at the source);
`transitionRejected` carries the matched source state, the target, the
trigger and the guard's own error. `outOfFuel` is the model's marker for the
source's unbounded bubbling loop not terminating. -/
inductive FireError (E : Type) where
  | outOfFuel
  | notFound (trigger : Nat) (currentState : Nat)
  | transitionRejected (fromState : Nat) (next : Nat) (trigger : Nat) (cause : E)
  | exitHookFailed (state : Nat) (cause : E)
  | actionFailed (cause : E)
  | entryHookFailed (state : Nat) (cause : E)
  deriving DecidableEq

/-- Result of one `Machine.Fire` call: the returned error (if any), the
machine's `state` field after the call, and the trace of hook/action
invocations. -/
structure FireResult (E : Type) where
  error : Option (FireError E)
  newState : Nat
  trace : List Event
  deriving DecidableEq

/-- Guard evaluation in `Machine.Fire`: a nil guard accepts. -/
def checkGuard (guard : Option (D → Option E)) (data : D) : Option E :=
  match guard with
  | none => none
  | some g => g data

/-- The exit-phase loop of `Machine.Fire`: walk the source chain leaf-upward,
breaking at the LCA, invoking each present `OnExit` hook; a failing hook stops
the walk with its error (the failing invocation is still recorded, as its side
effects have happened). -/
def runExits (spec : Spec E D) (lca : Option Nat) (data : D) :
    List Nat → List Event × Option (FireError E)
  | [] => ([], none)
  | s :: rest =>
    if lca = some s then ([], none)
    else
      match (spec.hooksOf s).OnExit with
      | none => runExits spec lca data rest
      | some f =>
        match f data with
        | some e => ([.exit s], some (.exitHookFailed s e))
        | none =>
          let r := runExits spec lca data rest
          (.exit s :: r.1, r.2)

/-- The action invocation of `Machine.Fire`: a nil action is a no-op. -/
def runAction (trans : Transition E D) (data : D) :
    List Event × Option (FireError E) :=
  match trans.Action with
  | none => ([], none)
  | some a =>
    match a data with
    | some e => ([.action], some (.actionFailed e))
    | none => ([.action], none)

/-- The entry-phase loop of `Machine.Fire`: walk the given states (target
chain from the start index down to the leaf), skipping the LCA (`continue` in
the source), invoking each present `OnEntry` hook; a failing hook stops the
walk with its error. -/
def runEntries (spec : Spec E D) (lca : Option Nat) (data : D) :
    List Nat → List Event × Option (FireError E)
  | [] => ([], none)
  | s :: rest =>
    if lca = some s then runEntries spec lca data rest
    else
      match (spec.hooksOf s).OnEntry with
      | none => runEntries spec lca data rest
      | some f =>
        match f data with
        | some e => ([.entry s], some (.entryHookFailed s e))
        | none =>
          let r := runEntries spec lca data rest
          (.entry s :: r.1, r.2)

/-- The source chain captured by `Machine.Fire`: the ancestor chain of the
machine's original current state. -/
def sourceChain (spec : Spec E D) (cur : Nat) : List Nat :=
  spec.readHierarchy cur

/-- The target chain captured by `Machine.Fire`: the ancestor chain of the
transition's declared target. -/
def targetChain (spec : Spec E D) (trans : Transition E D) : List Nat :=
  spec.readHierarchy trans.Next

/-- The LCA pair computed by `Machine.Fire` for a resolved transition. -/
def fireLCA (spec : Spec E D) (cur : Nat) (trans : Transition E D) :
    Option (Nat × Nat) :=
  findLCA (sourceChain spec cur) (targetChain spec trans)

/-- The list of states visited by the entry-phase loop, in visit order:
target-chain indices `startIdx` down to `0`, where `startIdx` is the LCA's
target index if an LCA exists, else the last index of the target chain. -/
def enteredStates (spec : Spec E D) (cur : Nat) (trans : Transition E D) :
    List Nat :=
  let tc := targetChain spec trans
  let startIdx :=
    match fireLCA spec cur trans with
    | some (_, j) => j
    | none => tc.length - 1
  (tc.take (startIdx + 1)).reverse

/-- The tail of `Machine.Fire`: the initial-substate block and the final state
commit. If the target declares an initial substate, its `OnEntry` hook (if
present) is invoked and on success the committed state is the substate,
otherwise the committed state is the transition's target. -/
def finishInitial (spec : Spec E D) (cur : Nat) (trans : Transition E D)
    (data : D) (tr : List Event) : FireResult E :=
  match spec.initialOf trans.Next with
  | some c =>
    match (spec.hooksOf c).OnEntry with
    | some f =>
      match f data with
      | some e => ⟨some (.entryHookFailed c e), cur, tr ++ [.entry c]⟩
      | none => ⟨none, c, tr ++ [.entry c]⟩
    | none => ⟨none, c, tr⟩
  | none => ⟨none, trans.Next, tr⟩

/-- The LCA state for `Machine.Fire` (the `lca` variable): the first
component of the LCA pair, when one exists. -/
def fireLcaO (spec : Spec E D) (cur : Nat) (trans : Transition E D) :
    Option Nat :=
  (fireLCA spec cur trans).map Prod.fst

/-- The exit-phase run of `Machine.Fire`: the exit loop over the source
chain. -/
def exitsRun (spec : Spec E D) (cur : Nat) (trans : Transition E D)
    (data : D) : List Event × Option (FireError E) :=
  runExits spec (fireLcaO spec cur trans) data (sourceChain spec cur)

/-- The entry-phase run of `Machine.Fire`: the entry loop over the visited
target-chain states. -/
def entriesRun (spec : Spec E D) (cur : Nat) (trans : Transition E D)
    (data : D) : List Event × Option (FireError E) :=
  runEntries spec (fireLcaO spec cur trans) data (enteredStates spec cur trans)

/-- The body of `Machine.Fire` after the bubbling search and guard have
accepted transition `trans`: LCA computation, exit phase, action, entry
phase, then the initial-substate block and commit. Any failure returns the
machine's state unchanged, with the trace of invocations made so far. -/
def fireCore (spec : Spec E D) (cur : Nat) (trans : Transition E D)
    (data : D) : FireResult E :=
  match (exitsRun spec cur trans data).2 with
  | some err => ⟨some err, cur, (exitsRun spec cur trans data).1⟩
  | none =>
    match (runAction trans data).2 with
    | some err =>
      ⟨some err, cur, (exitsRun spec cur trans data).1 ++ (runAction trans data).1⟩
    | none =>
      match (entriesRun spec cur trans data).2 with
      | some err =>
        ⟨some err, cur, (exitsRun spec cur trans data).1 ++ (runAction trans data).1
          ++ (entriesRun spec cur trans data).1⟩
      | none =>
        finishInitial spec cur trans data
          ((exitsRun spec cur trans data).1 ++ (runAction trans data).1
            ++ (entriesRun spec cur trans data).1)

/-- Method `Machine.Fire`: bubbling search (with explicit fuel for the source's
unbounded loop), guard evaluation at the matched state, then `fireCore`. -/
def Fire (spec : Spec E D) (cur trigger : Nat) (data : D) (fuel : Nat) :
    FireResult E :=
  match bubble spec trigger cur fuel with
  | .outOfFuel => ⟨some .outOfFuel, cur, []⟩
  | .notFound => ⟨some (.notFound trigger cur), cur, []⟩
  | .found matched t =>
    match checkGuard t.Guard data with
    | some e => ⟨some (.transitionRejected matched t.Next trigger e), cur, []⟩
    | none => fireCore spec cur t data

/-- Method `Machine.CanFire`: bubbling search and guard only; every failure is a
plain `false`. -/
def CanFire (spec : Spec E D) (cur trigger : Nat) (data : D) (fuel : Nat) :
    Bool :=
  match bubble spec trigger cur fuel with
  | .found _ t => (checkGuard t.Guard data).isNone
  | _ => false

/-! Builder model (`specBuilder`, `stateBuilder` from `fsm.go`). A `State(s)`
call chain allocates a fresh `stateBuilder` record and the chained calls fill
it in; `Build` replays the records in call order via `done()`. The model
represents each chain by its final record. -/

/-- The `stateBuilder` struct from `fsm.go` (the builder-chaining back pointer is
omitted; the zero values of `parent`/`initialState` are `0` as in Go). -/
structure StateBuilderRec (E D : Type) where
  state : Nat
  hooks : StateHooks E D
  parent : Nat
  isParentSet : Bool
  initialState : Nat
  isInitialStateSet : Bool

/-- The fresh `stateBuilder` allocated by `specBuilder.State(state)`. -/
def newStateBuilder (E D : Type) (s : Nat) : StateBuilderRec E D :=
  ⟨s, StateHooks.empty E D, 0, false, 0, false⟩

/-- Method `stateBuilder.OnEntry`. -/
def StateBuilderRec.OnEntry (sb : StateBuilderRec E D) (f : D → Option E) :
    StateBuilderRec E D :=
  { sb with hooks := { sb.hooks with OnEntry := some f } }

/-- Method `stateBuilder.OnExit`. -/
def StateBuilderRec.OnExit (sb : StateBuilderRec E D) (f : D → Option E) :
    StateBuilderRec E D :=
  { sb with hooks := { sb.hooks with OnExit := some f } }

/-- Method `stateBuilder.Parent`. -/
def StateBuilderRec.Parent (sb : StateBuilderRec E D) (p : Nat) :
    StateBuilderRec E D :=
  { sb with parent := p, isParentSet := true }

/-- Method `stateBuilder.Initial`. -/
def StateBuilderRec.Initial (sb : StateBuilderRec E D) (c : Nat) :
    StateBuilderRec E D :=
  { sb with initialState := c, isInitialStateSet := true }

/-- The `specBuilder` struct from `fsm.go` (transition-builder bookkeeping other
than the finished table entries is omitted; completed transition definitions
are entered directly into `transitions`). -/
structure SpecBuilder (E D : Type) where
  stateCount : Nat
  triggerCount : Nat
  transitions : List (Transition E D)
  stateHooks : List (StateHooks E D)
  stateParents : List (Option Nat)
  initialStates : List (Option Nat)
  stateBuilders : List (StateBuilderRec E D)

/-- Function `NewSpecBuilder`: panics (here `none`) on a zero state or trigger count;
otherwise allocates zero-valued tables of the declared sizes. -/
def NewSpecBuilder (E D : Type) (numStates numTriggers : Nat) :
    Option (SpecBuilder E D) :=
  if numStates = 0 ∨ numTriggers = 0 then none
  else
    some ⟨numStates, numTriggers,
      List.replicate (numStates * numTriggers) (Transition.invalid E D),
      List.replicate numStates (StateHooks.empty E D),
      List.replicate numStates none,
      List.replicate numStates none,
      []⟩

/-- A `specBuilder.State(s)` call followed by a chain of configuration calls,
summarised by the chain's final record: the record is appended to
`stateBuilders` in call order. -/
def SpecBuilder.State (b : SpecBuilder E D) (sb : StateBuilderRec E D) :
    SpecBuilder E D :=
  { b with stateBuilders := b.stateBuilders ++ [sb] }

/-- A completed `Transition().From(f).On(t).To(to)[.WithGuard][.WithAction]`
chain, as entered into the table by `transitionToBuilder.done()`. -/
def SpecBuilder.declareTransition (b : SpecBuilder E D)
    (fromState trigger toState : Nat) (guard : Option (D → Option E))
    (action : Option (D → Option E)) : SpecBuilder E D :=
  { b with
    transitions := b.transitions.set
      (transitionIndex fromState trigger b.triggerCount)
      ⟨true, toState, guard, "", action, ""⟩ }

/-- Method `stateBuilder.done()`: the hooks slot is assigned unconditionally from
this record; the parent and initial-substate slots are assigned only when set
on this record. -/
def StateBuilderRec.done (sb : StateBuilderRec E D) (b : SpecBuilder E D) :
    SpecBuilder E D :=
  { b with
    stateHooks := b.stateHooks.set sb.state sb.hooks,
    stateParents :=
      if sb.isParentSet then b.stateParents.set sb.state (some sb.parent)
      else b.stateParents,
    initialStates :=
      if sb.isInitialStateSet then
        b.initialStates.set sb.state (some sb.initialState)
      else b.initialStates }

/-- The initial-substate validation loop of `specBuilder.Build`: every
declared initial substate must have a declared parent equal to the state
declaring it. -/
def validInitials (stateParents initialStates : List (Option Nat)) : Bool :=
  (List.range initialStates.length).all fun i =>
    match initialStates.getD i none with
    | none => true
    | some c =>
      match stateParents.getD c none with
      | none => false
      | some p => p = i

/-- Method `specBuilder.Build`: replay the state-builder records in order via
`done()`, validate initial substates (a panic in the source is `none` here),
and freeze the tables into a `Spec`. -/
def SpecBuilder.Build (b : SpecBuilder E D) : Option (Spec E D) :=
  let b2 := b.stateBuilders.foldl (fun acc sb => sb.done acc) b
  if validInitials b2.stateParents b2.initialStates then
    some ⟨b2.stateCount, b2.triggerCount, b2.transitions, b2.stateHooks,
      b2.stateParents, b2.initialStates⟩
  else none

/-! Declarative descriptions of the phases, used to state the theorems. -/

/-- Whether a state has an `OnExit` hook. -/
def hasExit (spec : Spec E D) (s : Nat) : Bool :=
  ((spec.hooksOf s).OnExit).isSome

/-- Whether a state has an `OnEntry` hook. -/
def hasEntry (spec : Spec E D) (s : Nat) : Bool :=
  ((spec.hooksOf s).OnEntry).isSome

/-- The portion of a chain strictly below the LCA: the walk stops at the
first occurrence of the LCA. -/
def cutAtLCA (lca : Option Nat) (chain : List Nat) : List Nat :=
  match lca with
  | none => chain
  | some L => chain.takeWhile (fun s => s ≠ L)

/-- The states whose `OnExit` hooks the exit phase invokes, in order. -/
def exitStates (spec : Spec E D) (lca : Option Nat) (chain : List Nat) :
    List Nat :=
  (cutAtLCA lca chain).filter (hasExit spec)

/-- The states whose `OnEntry` hooks the entry phase invokes, in order:
the visited states with the LCA skipped and hookless states dropped. -/
def entryStates (spec : Spec E D) (lca : Option Nat) (visited : List Nat) :
    List Nat :=
  (visited.filter (fun s => lca ≠ some s)).filter (hasEntry spec)

/-- The trace contribution of the action invocation. -/
def actionTrace (trans : Transition E D) : List Event :=
  match trans.Action with
  | none => []
  | some _ => [.action]

/-- The trace contribution of the initial-substate block on success. -/
def initTrace (spec : Spec E D) (trans : Transition E D) : List Event :=
  match spec.initialOf trans.Next with
  | none => []
  | some c => if hasEntry spec c then [.entry c] else []

/-- The state committed by a successful `Fire` for transition `trans`. -/
def commitTarget (spec : Spec E D) (trans : Transition E D) : Nat :=
  match spec.initialOf trans.Next with
  | some c => c
  | none => trans.Next

/-- The ancestor chain from a state to its root, `none` if not reached within
`fuel` steps. Unlike `readHierarchy` this is not truncated silently; it
witnesses that the chain terminates. -/
def chainToRoot (spec : Spec E D) : Nat → Nat → Option (List Nat)
  | _, 0 => none
  | s, fuel + 1 =>
    match spec.parentOf s with
    | none => some [s]
    | some p => (chainToRoot spec p fuel).map (s :: ·)

/-- The depth invariant of the data model: every upward chain terminates
within `maxDepth` levels. -/
def BoundedDepth (spec : Spec E D) : Prop :=
  ∀ s, (chainToRoot spec s maxDepth).isSome

/-! Concrete specifications (with `E = D = Nat`) used to evaluate the
theorems on concrete inputs. -/

/-- Zero-value fallback specification. -/
def wDefault : Spec Nat Nat := ⟨0, 0, [], [], [], []⟩

/-- Zero-value fallback builder. -/
def wDefaultB : SpecBuilder Nat Nat := ⟨0, 0, [], [], [], [], []⟩

/-- A hook/action that always succeeds. -/
def wOk : Nat → Option Nat := fun _ => none

/-- A guard that always rejects with error `5`. -/
def wGuardFn : Nat → Option Nat := fun _ => some 5

/-- Two states, one transition `0 ─0→ 1` guarded by `wGuardFn`. -/
def wGuard : Spec Nat Nat :=
  (((NewSpecBuilder Nat Nat 2 1).getD wDefaultB).declareTransition 0 0 1
    (some wGuardFn) none).Build.getD wDefault

/-- The hierarchy of the specification's test scenario: root `0`, its child
`1`, branch A `1 → 2 → 3`, branch B `1 → 4 → 5`; every state has both hooks.
Trigger `0`: `3 ─→ 5` with an action; trigger `1`: declared only on the root,
`0 ─→ 4`; trigger `2`: declared nowhere; trigger `3`: self-transition
`2 ─→ 2`. -/
def wHier : Spec Nat Nat :=
  (((NewSpecBuilder Nat Nat 6 4).getD wDefaultB)
    |>.declareTransition 3 0 5 none (some wOk)
    |>.declareTransition 0 1 4 none none
    |>.declareTransition 2 3 2 none none
    |>.State (((newStateBuilder Nat Nat 0).OnEntry wOk).OnExit wOk)
    |>.State ((((newStateBuilder Nat Nat 1).OnEntry wOk).OnExit wOk).Parent 0)
    |>.State ((((newStateBuilder Nat Nat 2).OnEntry wOk).OnExit wOk).Parent 1)
    |>.State ((((newStateBuilder Nat Nat 3).OnEntry wOk).OnExit wOk).Parent 2)
    |>.State ((((newStateBuilder Nat Nat 4).OnEntry wOk).OnExit wOk).Parent 1)
    |>.State ((((newStateBuilder Nat Nat 5).OnEntry wOk).OnExit wOk).Parent 4)
    |>.Build).getD wDefault

/-- Initial-substate chain: transition `0 ─0→ 1`; state `1` declares initial
substate `2`, and `2` itself declares initial substate `3`. -/
def wInit : Spec Nat Nat :=
  (((NewSpecBuilder Nat Nat 4 1).getD wDefaultB)
    |>.declareTransition 0 0 1 none none
    |>.State (((newStateBuilder Nat Nat 1).OnEntry wOk).Initial 2)
    |>.State ((((newStateBuilder Nat Nat 2).OnEntry wOk).Parent 1).Initial 3)
    |>.State (((newStateBuilder Nat Nat 3).OnEntry wOk).Parent 2)
    |>.Build).getD wDefault

/-- The builder record allocated by `NewSpecBuilder(1, 1)`. -/
def c7b : SpecBuilder Nat Nat :=
  ⟨1, 1, List.replicate 1 (Transition.invalid Nat Nat),
    List.replicate 1 (StateHooks.empty Nat Nat),
    List.replicate 1 none, List.replicate 1 none, []⟩

/-- First `State(0)` call chain of the C7 counterexample: sets only
`OnEntry`. -/
def c7sb1 : StateBuilderRec Nat Nat := (newStateBuilder Nat Nat 0).OnEntry wOk

/-- Second `State(0)` call chain of the C7 counterexample: sets only
`OnExit`. -/
def c7sb2 : StateBuilderRec Nat Nat := (newStateBuilder Nat Nat 0).OnExit wOk

/-- The C7 counterexample build: `State(0).OnEntry(...)`, then
`State(0).OnExit(...)`, then `Build`. -/
def c7spec : Option (Spec Nat Nat) := ((c7b.State c7sb1).State c7sb2).Build

/-- First call chain of the amended-C7 witness: sets `OnEntry` and the
parent. -/
def c7wsb1 : StateBuilderRec Nat Nat :=
  ((newStateBuilder Nat Nat 0).OnEntry wOk).Parent 0

/-- Second call chain of the amended-C7 witness: sets only `OnExit`. -/
def c7wsb2 : StateBuilderRec Nat Nat := (newStateBuilder Nat Nat 0).OnExit wOk

/-- The specification produced by the amended-C7 witness build. -/
def c7wspec : Spec Nat Nat :=
  ⟨1, 1, List.replicate 1 (Transition.invalid Nat Nat), [c7wsb2.hooks],
    [some 0], [none]⟩

/-! Helper lemmas about list indexing used for the builder theorems. -/

theorem getD_set_self {α : Type} :
    ∀ (l : List α) (n : Nat) (a d : α), n < l.length →
      (l.set n a).getD n d = a
  | [], n, a, d, h => by simp at h
  | x :: xs, 0, a, d, _ => rfl
  | x :: xs, n + 1, a, d, h => by
    show (x :: xs.set n a).getD (n + 1) d = a
    rw [List.getD_cons_succ]
    exact getD_set_self xs n a d (by simpa using h)

theorem getD_set_ne {α : Type} :
    ∀ (l : List α) (m n : Nat) (a d : α), m ≠ n →
      (l.set m a).getD n d = l.getD n d
  | [], _, _, _, _, _ => rfl
  | x :: xs, 0, 0, a, d, h => absurd rfl h
  | x :: xs, 0, n + 1, a, d, _ => rfl
  | x :: xs, m + 1, 0, a, d, _ => rfl
  | x :: xs, m + 1, n + 1, a, d, h => by
    show (x :: xs.set m a).getD (n + 1) d = (x :: xs).getD (n + 1) d
    rw [List.getD_cons_succ, List.getD_cons_succ]
    exact getD_set_ne xs m n a d (fun hh => h (by rw [hh]))

theorem getD_replicate_lt {α : Type} :
    ∀ (n i : Nat) (a d : α), i < n → (List.replicate n a).getD i d = a
  | 0, i, a, d, h => by simp at h
  | n + 1, 0, a, d, _ => rfl
  | n + 1, i + 1, a, d, h => by
    show (a :: List.replicate n a).getD (i + 1) d = a
    rw [List.getD_cons_succ]
    exact getD_replicate_lt n i a d (by omega)

theorem setTwice_getD {α : Type} (l : List α) (i : Nat) (a b d : α)
    (hlen : i < l.length) : ((l.set i a).set i b).getD i d = b :=
  getD_set_self _ _ _ _ (by simpa using hlen)

/-- Reading back an index that two conditional `set`s may have written: the
later write wins when made, else the earlier one, else the base value. -/
theorem condSet2_getD {α : Type} (l : List (Option α)) (i : Nat)
    (c1 c2 : Bool) (v1 v2 : α) (hlen : i < l.length)
    (hbase : l.getD i none = none) :
    (if c2 = true then
      (if c1 = true then l.set i (some v1) else l).set i (some v2)
     else if c1 = true then l.set i (some v1) else l).getD i none
    = (if c2 = true then some v2
       else if c1 = true then some v1 else none) := by
  cases c2 <;> cases c1 <;>
    simp only [Bool.false_eq_true, if_false, if_true]
  · exact hbase
  · exact getD_set_self _ _ _ _ hlen
  · exact getD_set_self _ _ _ _ hlen
  · exact getD_set_self _ _ _ _ (by simpa using hlen)

/-- A successful `Build` freezes exactly the tables produced by replaying the
state-builder records. -/
theorem Build_eq_some {b : SpecBuilder E D} {spec : Spec E D}
    (h : b.Build = some spec) :
    spec = ⟨(b.stateBuilders.foldl (fun acc sb => sb.done acc) b).stateCount,
      (b.stateBuilders.foldl (fun acc sb => sb.done acc) b).triggerCount,
      (b.stateBuilders.foldl (fun acc sb => sb.done acc) b).transitions,
      (b.stateBuilders.foldl (fun acc sb => sb.done acc) b).stateHooks,
      (b.stateBuilders.foldl (fun acc sb => sb.done acc) b).stateParents,
      (b.stateBuilders.foldl (fun acc sb => sb.done acc) b).initialStates⟩ := by
  simp only [SpecBuilder.Build] at h
  split at h
  · injection h with h
    exact h.symm
  · exact absurd h (by simp)

/-! Helper lemmas about the phase loops. -/

theorem cutAtLCA_nil (lca : Option Nat) : cutAtLCA lca [] = [] := by
  cases lca <;> rfl

theorem cutAtLCA_cons_stop (L : Nat) (rest : List Nat) :
    cutAtLCA (some L) (L :: rest) = [] := by
  simp [cutAtLCA]

theorem cutAtLCA_cons (lca : Option Nat) (s : Nat) (rest : List Nat)
    (h : lca ≠ some s) :
    cutAtLCA lca (s :: rest) = s :: cutAtLCA lca rest := by
  match lca with
  | none => simp [cutAtLCA]
  | some L =>
    have hsL : s ≠ L := fun he => h (by simp [he])
    simp [cutAtLCA, List.takeWhile_cons, hsL]

theorem runExits_none_trace (spec : Spec E D) (lca : Option Nat) (data : D) :
    ∀ chain : List Nat, (runExits spec lca data chain).2 = none →
      (runExits spec lca data chain).1 =
        (exitStates spec lca chain).map Event.exit
  | [], _ => by simp [runExits, exitStates, cutAtLCA_nil]
  | s :: rest, h => by
    by_cases hl : lca = some s
    · obtain ⟨L, rfl⟩ : ∃ L, lca = some L := ⟨s, hl⟩
      have hs : s = L := by injection hl.symm
      subst hs
      simp [runExits, exitStates, cutAtLCA_cons_stop]
    · rw [runExits] at h ⊢
      simp only [if_neg hl] at h ⊢
      match hhook : (spec.hooksOf s).OnExit with
      | none =>
        simp only [hhook] at h ⊢
        rw [runExits_none_trace spec lca data rest h]
        simp [exitStates, cutAtLCA_cons lca s rest hl, List.filter_cons,
          hasExit, hhook]
      | some f =>
        simp only [hhook] at h ⊢
        match hf : f data with
        | some e => simp [hf] at h
        | none =>
          simp only [hf] at h ⊢
          rw [runExits_none_trace spec lca data rest h]
          simp [exitStates, cutAtLCA_cons lca s rest hl, List.filter_cons,
            hasExit, hhook]

theorem runEntries_none_trace (spec : Spec E D) (lca : Option Nat) (data : D) :
    ∀ visited : List Nat, (runEntries spec lca data visited).2 = none →
      (runEntries spec lca data visited).1 =
        (entryStates spec lca visited).map Event.entry
  | [], _ => by simp [runEntries, entryStates]
  | s :: rest, h => by
    by_cases hl : lca = some s
    · rw [runEntries] at h ⊢
      simp only [if_pos hl] at h ⊢
      rw [runEntries_none_trace spec lca data rest h]
      simp [entryStates, List.filter_cons, hl]
    · rw [runEntries] at h ⊢
      simp only [if_neg hl] at h ⊢
      match hhook : (spec.hooksOf s).OnEntry with
      | none =>
        simp only [hhook] at h ⊢
        rw [runEntries_none_trace spec lca data rest h]
        simp [entryStates, List.filter_cons, hl, hasEntry, hhook]
      | some f =>
        simp only [hhook] at h ⊢
        match hf : f data with
        | some e => simp [hf] at h
        | none =>
          simp only [hf] at h ⊢
          rw [runEntries_none_trace spec lca data rest h]
          simp [entryStates, List.filter_cons, hl, hasEntry, hhook]

theorem runAction_fst (t : Transition E D) (data : D) :
    (runAction t data).1 = actionTrace t := by
  cases ha : t.Action with
  | none => simp [runAction, actionTrace, ha]
  | some a => cases hf : a data <;> simp [runAction, actionTrace, ha, hf]

theorem runExits_err_shape (spec : Spec E D) (lca : Option Nat) (data : D) :
    ∀ (chain : List Nat) (e : FireError E),
      (runExits spec lca data chain).2 = some e →
      ∃ s c, e = .exitHookFailed s c
  | [], e, h => by simp [runExits] at h
  | s :: rest, e, h => by
    rw [runExits] at h
    by_cases hl : lca = some s
    · simp [if_pos hl] at h
    · simp only [if_neg hl] at h
      match hhook : (spec.hooksOf s).OnExit with
      | none =>
        simp only [hhook] at h
        exact runExits_err_shape spec lca data rest e h
      | some f =>
        simp only [hhook] at h
        match hf : f data with
        | some e' =>
          simp only [hf] at h
          exact ⟨s, e', (Option.some_injective _ h.symm).symm ▸ rfl⟩
        | none =>
          simp only [hf] at h
          exact runExits_err_shape spec lca data rest e h

theorem runEntries_err_shape (spec : Spec E D) (lca : Option Nat) (data : D) :
    ∀ (visited : List Nat) (e : FireError E),
      (runEntries spec lca data visited).2 = some e →
      ∃ s c, e = .entryHookFailed s c
  | [], e, h => by simp [runEntries] at h
  | s :: rest, e, h => by
    rw [runEntries] at h
    by_cases hl : lca = some s
    · simp only [if_pos hl] at h
      exact runEntries_err_shape spec lca data rest e h
    · simp only [if_neg hl] at h
      match hhook : (spec.hooksOf s).OnEntry with
      | none =>
        simp only [hhook] at h
        exact runEntries_err_shape spec lca data rest e h
      | some f =>
        simp only [hhook] at h
        match hf : f data with
        | some e' =>
          simp only [hf] at h
          exact ⟨s, e', (Option.some_injective _ h.symm).symm ▸ rfl⟩
        | none =>
          simp only [hf] at h
          exact runEntries_err_shape spec lca data rest e h

theorem runAction_err_shape (trans : Transition E D) (data : D)
    (e : FireError E) (h : (runAction trans data).2 = some e) :
    ∃ c, e = .actionFailed c := by
  rw [runAction] at h
  match ha : trans.Action with
  | none => simp [ha] at h
  | some a =>
    simp only [ha] at h
    match hf : a data with
    | some e' =>
      simp only [hf] at h
      exact ⟨e', (Option.some_injective _ h.symm).symm ▸ rfl⟩
    | none => simp [hf] at h

/-- Full case analysis of the initial-substate block: either the substate's
entry hook fails (state not committed), or the block succeeds and commits
`commitTarget`, appending `initTrace` to the trace. -/
theorem finishInitial_cases (spec : Spec E D) (cur : Nat)
    (t : Transition E D) (data : D) (tr : List Event) :
    (∃ c e, spec.initialOf t.Next = some c ∧
        finishInitial spec cur t data tr =
          ⟨some (.entryHookFailed c e), cur, tr ++ [.entry c]⟩)
    ∨ finishInitial spec cur t data tr =
        ⟨none, commitTarget spec t, tr ++ initTrace spec t⟩ := by
  cases hi : spec.initialOf t.Next with
  | none => right; simp [finishInitial, commitTarget, initTrace, hi]
  | some c =>
    cases hh : (spec.hooksOf c).OnEntry with
    | none =>
      right
      simp [finishInitial, commitTarget, initTrace, hi, hh, hasEntry]
    | some f =>
      cases hf : f data with
      | none =>
        right
        simp [finishInitial, commitTarget, initTrace, hi, hh, hf, hasEntry]
      | some e => exact .inl ⟨c, e, rfl, by simp [finishInitial, hi, hh, hf]⟩

/-- Master case analysis of `fireCore`: either every phase succeeded and the
result commits `commitTarget` with the concatenated phase traces, or some
hook or the action failed, the state is unchanged, and the error identifies
the failing kind. -/
theorem fireCore_cases (spec : Spec E D) (cur : Nat) (t : Transition E D)
    (data : D) :
    (fireCore spec cur t data =
        ⟨none, commitTarget spec t,
          (exitsRun spec cur t data).1 ++ (runAction t data).1
            ++ (entriesRun spec cur t data).1 ++ initTrace spec t⟩
      ∧ (exitsRun spec cur t data).2 = none ∧ (runAction t data).2 = none
      ∧ (entriesRun spec cur t data).2 = none)
    ∨ ((fireCore spec cur t data).newState = cur
      ∧ ∃ e, (fireCore spec cur t data).error = some e
        ∧ ((∃ s c, e = .exitHookFailed s c) ∨ (∃ c, e = .actionFailed c)
          ∨ (∃ s c, e = .entryHookFailed s c))) := by
  cases hex : (exitsRun spec cur t data).2 with
  | some e =>
    right
    refine ⟨by simp [fireCore, hex], e, by simp [fireCore, hex], ?_⟩
    exact .inl (runExits_err_shape spec _ data _ e hex)
  | none =>
    cases hac : (runAction t data).2 with
    | some e =>
      right
      refine ⟨by simp [fireCore, hex, hac], e, by simp [fireCore, hex, hac], ?_⟩
      exact .inr (.inl (runAction_err_shape t data e hac))
    | none =>
      cases hen : (entriesRun spec cur t data).2 with
      | some e =>
        right
        refine ⟨by simp [fireCore, hex, hac, hen], e,
          by simp [fireCore, hex, hac, hen], ?_⟩
        exact .inr (.inr (runEntries_err_shape spec _ data _ e hen))
      | none =>
        have hfc : fireCore spec cur t data =
            finishInitial spec cur t data
              ((exitsRun spec cur t data).1 ++ (runAction t data).1
                ++ (entriesRun spec cur t data).1) := by
          simp [fireCore, hex, hac, hen]
        rcases finishInitial_cases spec cur t data
            ((exitsRun spec cur t data).1 ++ (runAction t data).1
              ++ (entriesRun spec cur t data).1) with ⟨c, e, _, hfin⟩ | hfin
        · right
          rw [hfc, hfin]
          exact ⟨rfl, .entryHookFailed c e, rfl, .inr (.inr ⟨c, e, rfl⟩)⟩
        · left
          rw [hfc, hfin]
          exact ⟨by simp [List.append_assoc], rfl, rfl, rfl⟩

/-- On any error, `fireCore` leaves the state unchanged. -/
theorem fireCore_err_state (spec : Spec E D) (cur : Nat) (t : Transition E D)
    (data : D) (e : FireError E)
    (h : (fireCore spec cur t data).error = some e) :
    (fireCore spec cur t data).newState = cur := by
  rcases fireCore_cases spec cur t data with ⟨heq, _⟩ | ⟨hst, _⟩
  · rw [heq] at h; simp at h
  · exact hst

/-- Errors produced by `fireCore` are hook or action failures only. -/
theorem fireCore_err_shape (spec : Spec E D) (cur : Nat) (t : Transition E D)
    (data : D) (e : FireError E)
    (h : (fireCore spec cur t data).error = some e) :
    (∃ s c, e = .exitHookFailed s c) ∨ (∃ c, e = .actionFailed c)
      ∨ (∃ s c, e = .entryHookFailed s c) := by
  rcases fireCore_cases spec cur t data with ⟨heq, _⟩ | ⟨_, e', he', hsh⟩
  · rw [heq] at h; simp at h
  · rw [he'] at h
    exact (Option.some_injective _ h.symm) ▸ hsh

/-- On success, `fireCore` commits `commitTarget` and its trace is the
declarative phase decomposition. -/
theorem fireCore_success (spec : Spec E D) (cur : Nat) (t : Transition E D)
    (data : D) (h : (fireCore spec cur t data).error = none) :
    (fireCore spec cur t data).newState = commitTarget spec t
    ∧ (fireCore spec cur t data).trace =
        (exitStates spec (fireLcaO spec cur t) (sourceChain spec cur)).map
            Event.exit
          ++ actionTrace t
          ++ (entryStates spec (fireLcaO spec cur t)
              (enteredStates spec cur t)).map Event.entry
          ++ initTrace spec t := by
  rcases fireCore_cases spec cur t data with ⟨heq, hex, hac, hen⟩ | ⟨_, e, he, _⟩
  · rw [heq]
    refine ⟨rfl, ?_⟩
    show (exitsRun spec cur t data).1 ++ (runAction t data).1
        ++ (entriesRun spec cur t data).1 ++ initTrace spec t = _
    simp only [exitsRun, entriesRun] at hex hen ⊢
    rw [runExits_none_trace spec _ data _ hex, runAction_fst,
      runEntries_none_trace spec _ data _ hen]
  · rw [he] at h; simp at h

/-- Behaviour of `Machine.Fire` when the bubbling search matches and the
guard accepts. -/
theorem Fire_eq_of_found (spec : Spec E D) (cur trigger : Nat) (data : D)
    (fuel ms : Nat) (t : Transition E D)
    (hb : bubble spec trigger cur fuel = .found ms t)
    (hg : checkGuard t.Guard data = none) :
    Fire spec cur trigger data fuel = fireCore spec cur t data := by
  simp [Fire, hb, hg]

/-- Behaviour of `Machine.Fire` when the guard rejects: `TransitionRejected` wrapping the
guard's error, state unchanged, nothing invoked. -/
theorem Fire_eq_of_guard_err (spec : Spec E D) (cur trigger : Nat) (data : D)
    (fuel ms : Nat) (t : Transition E D) (e : E)
    (hb : bubble spec trigger cur fuel = .found ms t)
    (hg : checkGuard t.Guard data = some e) :
    Fire spec cur trigger data fuel =
      ⟨some (.transitionRejected ms t.Next trigger e), cur, []⟩ := by
  simp [Fire, hb, hg]

/-- Behaviour of `Machine.Fire` when no transition exists anywhere in the
chain. -/
theorem Fire_eq_of_notFound (spec : Spec E D) (cur trigger : Nat) (data : D)
    (fuel : Nat) (hb : bubble spec trigger cur fuel = .notFound) :
    Fire spec cur trigger data fuel =
      ⟨some (.notFound trigger cur), cur, []⟩ := by
  simp [Fire, hb]

/-! Lemmas about the bubbling search. -/

theorem bubble_found_of_valid (spec : Spec E D) (trigger s fuel : Nat)
    (h : (spec.transitionAt s trigger).Valid = true) :
    bubble spec trigger s (fuel + 1) = .found s (spec.transitionAt s trigger) := by
  simp [bubble, h]

theorem bubble_step (spec : Spec E D) (trigger s p fuel : Nat)
    (hv : (spec.transitionAt s trigger).Valid = false)
    (hp : spec.parentOf s = some p) :
    bubble spec trigger s (fuel + 1) = bubble spec trigger p fuel := by
  simp [bubble, hv, hp]

theorem bubble_root_notFound (spec : Spec E D) (trigger s fuel : Nat)
    (hv : (spec.transitionAt s trigger).Valid = false)
    (hp : spec.parentOf s = none) :
    bubble spec trigger s (fuel + 1) = .notFound := by
  simp [bubble, hv, hp]

/-- The bubbling search reports not-found exactly when no state of the
ancestor chain (from the start state to its root) has a valid transition for
the trigger. -/
theorem bubble_notFound_iff (spec : Spec E D) (trigger : Nat) :
    ∀ (fuel s : Nat) (chain : List Nat),
      chainToRoot spec s fuel = some chain →
      (bubble spec trigger s fuel = .notFound ↔
        ∀ x ∈ chain, (spec.transitionAt x trigger).Valid = false)
  | 0, s, chain, hc => by simp [chainToRoot] at hc
  | fuel + 1, s, chain, hc => by
    rw [chainToRoot] at hc
    cases hp : spec.parentOf s with
    | none =>
      rw [hp] at hc
      have hchain : chain = [s] := by
        injection hc with h; exact h.symm
      subst hchain
      cases hv : (spec.transitionAt s trigger).Valid with
      | true =>
        constructor
        · intro hb
          rw [bubble_found_of_valid spec trigger s fuel hv] at hb
          exact absurd hb (by simp)
        · intro hall
          exact absurd (hall s (by simp)) (by simp [hv])
      | false =>
        constructor
        · intro _ x hx
          rw [List.mem_singleton] at hx
          subst hx; exact hv
        · intro _
          exact bubble_root_notFound spec trigger s fuel hv hp
    | some p =>
      simp only [hp] at hc
      obtain ⟨chain', hc', rfl⟩ :
          ∃ chain', chainToRoot spec p fuel = some chain'
            ∧ chain = s :: chain' := by
        cases hcp : chainToRoot spec p fuel with
        | none => rw [hcp] at hc; simp at hc
        | some c =>
          rw [hcp] at hc
          simp only [Option.map_some'] at hc
          exact ⟨c, rfl, by injection hc with h; exact h.symm⟩
      cases hv : (spec.transitionAt s trigger).Valid with
      | true =>
        constructor
        · intro hb
          rw [bubble_found_of_valid spec trigger s fuel hv] at hb
          exact absurd hb (by simp)
        · intro hall
          exact absurd (hall s (by simp)) (by simp [hv])
      | false =>
        rw [bubble_step spec trigger s p fuel hv hp]
        rw [bubble_notFound_iff spec trigger fuel p chain' hc']
        constructor
        · intro hall x hx
          rcases List.mem_cons.mp hx with rfl | hx'
          · exact hv
          · exact hall x hx'
        · intro hall x hx
          exact hall x (List.mem_cons_of_mem s hx)

/-- Given a terminating chain within `n` steps, the bubbling search's result
is already stable at fuel `n`. -/
theorem bubble_fuel_stable (spec : Spec E D) (trigger : Nat) :
    ∀ (n s : Nat), (chainToRoot spec s n).isSome →
      ∀ fuel, n ≤ fuel → bubble spec trigger s fuel = bubble spec trigger s n
  | 0, s, hc => by simp [chainToRoot] at hc
  | n + 1, s, hc => by
    intro fuel hfuel
    obtain ⟨f, rfl⟩ : ∃ f, fuel = f + 1 :=
      ⟨fuel - 1, by omega⟩
    have hf : n ≤ f := by omega
    cases hv : (spec.transitionAt s trigger).Valid with
    | true =>
      rw [bubble_found_of_valid spec trigger s f hv,
        bubble_found_of_valid spec trigger s n hv]
    | false =>
      cases hp : spec.parentOf s with
      | none =>
        rw [bubble_root_notFound spec trigger s f hv hp,
          bubble_root_notFound spec trigger s n hv hp]
      | some p =>
        rw [bubble_step spec trigger s p f hv hp,
          bubble_step spec trigger s p n hv hp]
        have hcp : (chainToRoot spec p n).isSome := by
          rw [chainToRoot] at hc
          simp only [hp] at hc
          cases hcpx : chainToRoot spec p n with
          | none => rw [hcpx] at hc; simp at hc
          | some c => simp
        exact bubble_fuel_stable spec trigger n p hcp f hf

/-- Given a terminating chain within `n` steps, fuel `n` is enough: the
bubbling search does not run out. -/
theorem bubble_ne_outOfFuel (spec : Spec E D) (trigger : Nat) :
    ∀ (n s : Nat), (chainToRoot spec s n).isSome →
      ∀ fuel, n ≤ fuel → bubble spec trigger s fuel ≠ .outOfFuel
  | 0, s, hc => by simp [chainToRoot] at hc
  | n + 1, s, hc => by
    intro fuel hfuel
    obtain ⟨f, rfl⟩ : ∃ f, fuel = f + 1 := ⟨fuel - 1, by omega⟩
    have hf : n ≤ f := by omega
    cases hv : (spec.transitionAt s trigger).Valid with
    | true =>
      rw [bubble_found_of_valid spec trigger s f hv]
      simp
    | false =>
      cases hp : spec.parentOf s with
      | none =>
        rw [bubble_root_notFound spec trigger s f hv hp]
        simp
      | some p =>
        rw [bubble_step spec trigger s p f hv hp]
        have hcp : (chainToRoot spec p n).isSome := by
          rw [chainToRoot] at hc
          simp only [hp] at hc
          cases hcpx : chainToRoot spec p n with
          | none => rw [hcpx] at hc; simp at hc
          | some c => simp
        exact bubble_ne_outOfFuel spec trigger n p hcp f hf

/-- The hierarchy chain always starts at the given state (the leaf). -/
theorem readHierarchy_cons (spec : Spec E D) (s : Nat) :
    ∃ rest, spec.readHierarchy s = s :: rest := by
  rw [Spec.readHierarchy, maxDepth, readHierarchyAux]
  exact ⟨_, rfl⟩

/-- The first event of the exit phase on a chain starting at a state that has
an exit hook and is not the LCA. -/
theorem runExits_cons_head (spec : Spec E D) (lca : Option Nat) (data : D)
    (s : Nat) (rest : List Nat) (f : D → Option E)
    (hl : lca ≠ some s) (hx : (spec.hooksOf s).OnExit = some f) :
    ((runExits spec lca data (s :: rest)).1).head? = some (.exit s) := by
  rw [runExits]
  simp only [if_neg hl, hx]
  cases hf : f data <;> simp

/-- Whatever happens after the exit phase, the trace of `fireCore` extends
the exit-phase trace. -/
theorem fireCore_trace_append (spec : Spec E D) (cur : Nat)
    (t : Transition E D) (data : D) :
    ∃ tr2, (fireCore spec cur t data).trace =
      (exitsRun spec cur t data).1 ++ tr2 := by
  cases hex : (exitsRun spec cur t data).2 with
  | some e => exact ⟨[], by simp [fireCore, hex]⟩
  | none =>
    cases hac : (runAction t data).2 with
    | some e => exact ⟨(runAction t data).1, by simp [fireCore, hex, hac]⟩
    | none =>
      cases hen : (entriesRun spec cur t data).2 with
      | some e =>
        exact ⟨(runAction t data).1 ++ (entriesRun spec cur t data).1,
          by simp [fireCore, hex, hac, hen]⟩
      | none =>
        have hfc : fireCore spec cur t data =
            finishInitial spec cur t data
              ((exitsRun spec cur t data).1 ++ (runAction t data).1
                ++ (entriesRun spec cur t data).1) := by
          simp [fireCore, hex, hac, hen]
        rcases finishInitial_cases spec cur t data
            ((exitsRun spec cur t data).1 ++ (runAction t data).1
              ++ (entriesRun spec cur t data).1) with ⟨c, e, _, hfin⟩ | hfin
        · exact ⟨(runAction t data).1 ++ (entriesRun spec cur t data).1
              ++ [.entry c],
            by rw [hfc, hfin]; simp [List.append_assoc]⟩
        · exact ⟨(runAction t data).1 ++ (entriesRun spec cur t data).1
              ++ initTrace spec t,
            by rw [hfc, hfin]; simp [List.append_assoc]⟩

/-- The depth invariant holds for the concrete hierarchy `wHier`. -/
theorem wHier_bounded : BoundedDepth wHier := by
  intro s
  by_cases h : s < 6
  · interval_cases s <;> decide
  · have hlen : wHier.stateParents.length = 6 := by decide
    have hp : wHier.parentOf s = none := by
      rw [Spec.parentOf]
      exact List.getD_eq_default _ _ (by omega)
    rw [maxDepth, chainToRoot]
    simp [hp]

/-! Claim theorems. -/

/-- C1: if the transition resolved by bubbling declares a guard and that
guard returns an error, `Fire` returns a `TransitionRejected` error wrapping
the guard's error (together with the matched source state, the target and the
trigger), the current state is unchanged, and no exit hooks, action, or entry
hooks are invoked (the invocation trace is empty). -/
theorem C1_guard_rejection (spec : Spec E D) (cur trigger : Nat) (data : D)
    (fuel ms : Nat) (t : Transition E D) (g : D → Option E) (e : E)
    (hb : bubble spec trigger cur fuel = .found ms t)
    (hg : t.Guard = some g) (he : g data = some e) :
    Fire spec cur trigger data fuel =
      ⟨some (.transitionRejected ms t.Next trigger e), cur, []⟩ :=
  Fire_eq_of_guard_err spec cur trigger data fuel ms t e hb
    (by simp [checkGuard, hg, he])

/-- Witness for C1 on `wGuard`. -/
theorem C1_witness :
    Fire wGuard 0 0 0 10 =
      ⟨some (.transitionRejected 0 1 0 5), 0, []⟩ :=
  C1_guard_rejection wGuard 0 0 0 10 0 (wGuard.transitionAt 0 0) wGuardFn 5
    rfl rfl rfl

/-- C2: whenever `Fire` returns an error (`NotFound`, a guard rejection, or a
failing exit hook, action, or entry hook), the current state is unchanged
from before the call; on success the final state is assigned exactly once, at
the very end, to `commitTarget` (the resolved transition's target, or its
declared initial substate). -/
theorem C2_error_preserves_state (spec : Spec E D) (cur trigger : Nat)
    (data : D) (fuel : Nat) :
    (∀ e, (Fire spec cur trigger data fuel).error = some e →
      (Fire spec cur trigger data fuel).newState = cur)
    ∧ ((Fire spec cur trigger data fuel).error = none →
      ∃ ms t, bubble spec trigger cur fuel = .found ms t
        ∧ (Fire spec cur trigger data fuel).newState = commitTarget spec t) := by
  cases hb : bubble spec trigger cur fuel with
  | outOfFuel =>
    refine ⟨fun e _ => by simp [Fire, hb], fun h => ?_⟩
    rw [Fire] at h
    simp [hb] at h
  | notFound =>
    refine ⟨fun e _ => by simp [Fire, hb], fun h => ?_⟩
    rw [Fire] at h
    simp [hb] at h
  | found ms t =>
    cases hg : checkGuard t.Guard data with
    | some e =>
      have hF := Fire_eq_of_guard_err spec cur trigger data fuel ms t e hb hg
      refine ⟨fun e' _ => by rw [hF], fun h => ?_⟩
      rw [hF] at h
      simp at h
    | none =>
      have hF := Fire_eq_of_found spec cur trigger data fuel ms t hb hg
      constructor
      · intro e he
        rw [hF] at he ⊢
        exact fireCore_err_state spec cur t data e he
      · intro h
        rw [hF] at h ⊢
        rcases fireCore_cases spec cur t data with ⟨heq, _⟩ | ⟨_, e, he, _⟩
        · exact ⟨ms, t, rfl, by rw [heq]⟩
        · rw [he] at h; simp at h

/-- Witness for C2: a rejected `Fire` on `wGuard` keeps state `0`; a
successful `Fire` on `wHier` commits the resolved target. -/
theorem C2_witness :
    (Fire wGuard 0 0 0 10).newState = 0
    ∧ ∃ ms t, bubble wHier 0 3 10 = .found ms t
        ∧ (Fire wHier 3 0 0 10).newState = commitTarget wHier t :=
  ⟨(C2_error_preserves_state wGuard 0 0 0 10).1 (.transitionRejected 0 1 0 5) rfl,
   (C2_error_preserves_state wHier 3 0 0 10).2 rfl⟩

/-- C4: `Fire` resolves the transition by bubbling — on an invalid table
entry it moves to the declared parent and retries — and it returns a
`NotFound` error carrying the trigger and the original current state exactly
when no state of the ancestor chain up to the root has a valid transition
for the trigger. -/
theorem C4_bubbling_notFound (spec : Spec E D) (cur trigger : Nat) (data : D)
    (fuel : Nat) (chain : List Nat)
    (hc : chainToRoot spec cur fuel = some chain) :
    ((Fire spec cur trigger data fuel).error = some (.notFound trigger cur) ↔
      ∀ x ∈ chain, (spec.transitionAt x trigger).Valid = false)
    ∧ ∀ s p f, (spec.transitionAt s trigger).Valid = false →
        spec.parentOf s = some p →
        bubble spec trigger s (f + 1) = bubble spec trigger p f := by
  refine ⟨?_, fun s p f hv hp => bubble_step spec trigger s p f hv hp⟩
  rw [← bubble_notFound_iff spec trigger fuel cur chain hc]
  constructor
  · intro h
    cases hb : bubble spec trigger cur fuel with
    | notFound => rfl
    | outOfFuel =>
      rw [Fire] at h
      simp [hb] at h
    | found ms t =>
      cases hg : checkGuard t.Guard data with
      | some e =>
        rw [Fire_eq_of_guard_err spec cur trigger data fuel ms t e hb hg] at h
        simp at h
      | none =>
        rw [Fire_eq_of_found spec cur trigger data fuel ms t hb hg] at h
        rcases fireCore_err_shape spec cur t data _ h with
          ⟨a, c, h'⟩ | ⟨c, h'⟩ | ⟨a, c, h'⟩ <;> simp at h'
  · intro hb
    rw [Fire_eq_of_notFound spec cur trigger data fuel hb]

/-- Witness for C4: on `wHier`, trigger `2` is declared nowhere, so firing it
from leaf `3` fails with `NotFound` carrying trigger `2` and state `3`;
trigger `1` is declared only on the root, so the search from `3` steps to
the parent. -/
theorem C4_witness :
    (Fire wHier 3 2 0 10).error = some (.notFound 2 3)
    ∧ bubble wHier 2 3 10 = bubble wHier 2 2 9 := by
  have h := C4_bubbling_notFound wHier 3 2 0 10 [3, 2, 1, 0] rfl
  exact ⟨h.1.mpr (by decide), h.2 3 2 9 (by decide) rfl⟩

/-- C8: under the depth invariant (the parent relation is acyclic and every
upward chain terminates within 10 levels), the bubbling search of `Fire` and
`CanFire` terminates within the hierarchy-depth bound: fuel `maxDepth` never
runs out, and any larger fuel gives the same search result and the same
`CanFire` answer. -/
theorem C8_bubbling_terminates (spec : Spec E D) (hbd : BoundedDepth spec)
    (trigger s : Nat) (data : D) :
    bubble spec trigger s maxDepth ≠ .outOfFuel
    ∧ (Fire spec s trigger data maxDepth).error ≠ some .outOfFuel
    ∧ ∀ fuel, maxDepth ≤ fuel →
        bubble spec trigger s fuel = bubble spec trigger s maxDepth
        ∧ CanFire spec s trigger data fuel = CanFire spec s trigger data maxDepth := by
  have h1 := bubble_ne_outOfFuel spec trigger maxDepth s (hbd s) maxDepth le_rfl
  refine ⟨h1, ?_, ?_⟩
  · cases hb : bubble spec trigger s maxDepth with
    | outOfFuel => exact absurd hb h1
    | notFound => simp [Fire, hb]
    | found ms t =>
      cases hg : checkGuard t.Guard data with
      | some e => simp [Fire, hb, hg]
      | none =>
        rw [Fire_eq_of_found spec s trigger data maxDepth ms t hb hg]
        intro h
        rcases fireCore_err_shape spec s t data _ h with
          ⟨a, c, h'⟩ | ⟨c, h'⟩ | ⟨a, c, h'⟩ <;> simp at h'
  · intro fuel hfuel
    have hst := bubble_fuel_stable spec trigger maxDepth s (hbd s) fuel hfuel
    exact ⟨hst, by rw [CanFire, CanFire, hst]⟩

/-- Witness for C8 on `wHier` at state `3`, trigger `1`. -/
theorem C8_witness :
    bubble wHier 1 3 maxDepth ≠ .outOfFuel
    ∧ (Fire wHier 3 1 0 maxDepth).error ≠ some .outOfFuel
    ∧ ∀ fuel, maxDepth ≤ fuel →
        bubble wHier 1 3 fuel = bubble wHier 1 3 maxDepth
        ∧ CanFire wHier 3 1 0 fuel = CanFire wHier 3 1 0 maxDepth :=
  C8_bubbling_terminates wHier wHier_bounded 1 3 0

/-- C3: for a successful `Fire` whose source leaf and target chains share an
LCA `L` (found at target index `j`), the invocation order is: exit hooks
leaf-upward for exactly the source-chain states strictly below `L` that have
exit hooks, then the action (if any), then entry hooks top-down for exactly
the visited target-chain states other than `L` that have entry hooks, then
the initial-substate entry (if any); `L` belongs to neither the exit-phase
nor the entry-phase states, so neither of its hooks is invoked by these
phases. -/
theorem C3_lca_hook_order (spec : Spec E D) (cur trigger : Nat) (data : D)
    (fuel ms : Nat) (t : Transition E D) (L j : Nat)
    (hb : bubble spec trigger cur fuel = .found ms t)
    (hg : checkGuard t.Guard data = none)
    (hlca : fireLCA spec cur t = some (L, j))
    (hsucc : (Fire spec cur trigger data fuel).error = none) :
    (Fire spec cur trigger data fuel).trace =
      (exitStates spec (some L) (sourceChain spec cur)).map Event.exit
        ++ actionTrace t
        ++ (entryStates spec (some L)
            (((targetChain spec t).take (j + 1)).reverse)).map Event.entry
        ++ initTrace spec t
    ∧ L ∉ exitStates spec (some L) (sourceChain spec cur)
    ∧ L ∉ entryStates spec (some L)
        (((targetChain spec t).take (j + 1)).reverse) := by
  have hF := Fire_eq_of_found spec cur trigger data fuel ms t hb hg
  rw [hF] at hsucc ⊢
  obtain ⟨hstate, htr⟩ := fireCore_success spec cur t data hsucc
  refine ⟨?_, ?_, ?_⟩
  · rw [htr]
    simp only [fireLcaO, enteredStates, hlca, Option.map_some']
  · intro hmem
    have h1 := (List.mem_filter.mp hmem).1
    rw [cutAtLCA] at h1
    have h2 := List.mem_takeWhile_imp h1
    simp at h2
  · intro hmem
    have h1 := (List.mem_filter.mp (List.mem_filter.mp hmem).1).2
    simp at h1

/-- Witness for C3 on `wHier`: firing trigger `0` from `3` — LCA is `1` at
target index `2` — gives exits `[3, 2]`, the action, entries `[4, 5]`. -/
theorem C3_witness :
    (Fire wHier 3 0 0 10).trace =
      [Event.exit 3, Event.exit 2, Event.action, Event.entry 4, Event.entry 5]
    ∧ (1 : Nat) ∉ exitStates wHier (some 1) (sourceChain wHier 3)
    ∧ (1 : Nat) ∉ entryStates wHier (some 1)
        (((targetChain wHier (wHier.transitionAt 3 0)).take 3).reverse) := by
  obtain ⟨h1, h2, h3⟩ := C3_lca_hook_order wHier 3 0 0 10 3
    (wHier.transitionAt 3 0) 1 2 rfl rfl rfl rfl
  exact ⟨h1.trans (by decide), h2, h3⟩

/-- C5: when bubbling matches the transition at a strict ancestor
(`ms ≠ cur`), the exit chain is still computed from the machine's original
current state, not the matched state: provided the leaf has an exit hook and
is not itself the LCA, the very first invocation of the call is the leaf's
own exit hook. -/
theorem C5_exit_from_original_leaf (spec : Spec E D) (cur trigger : Nat)
    (data : D) (fuel ms : Nat) (t : Transition E D) (f : D → Option E)
    (hb : bubble spec trigger cur fuel = .found ms t)
    (hms : ms ≠ cur)
    (hg : checkGuard t.Guard data = none)
    (hlca : fireLcaO spec cur t ≠ some cur)
    (hx : (spec.hooksOf cur).OnExit = some f) :
    ((Fire spec cur trigger data fuel).trace).head? = some (.exit cur) := by
  rw [Fire_eq_of_found spec cur trigger data fuel ms t hb hg]
  obtain ⟨tr2, htr⟩ := fireCore_trace_append spec cur t data
  rw [htr]
  obtain ⟨rest, hchain⟩ := readHierarchy_cons spec cur
  have hhead : ((exitsRun spec cur t data).1).head? = some (.exit cur) := by
    rw [exitsRun, sourceChain, hchain]
    exact runExits_cons_head spec _ data cur rest f hlca hx
  exact List.mem_head?_append_of_mem_head? hhead

/-- Witness for C5 on `wHier`: trigger `1` is matched at the root `0`, yet
the first invocation is the exit hook of the original leaf `3`. -/
theorem C5_witness :
    ((Fire wHier 3 1 0 10).trace).head? = some (.exit 3) :=
  C5_exit_from_original_leaf wHier 3 1 0 10 0 (wHier.transitionAt 0 1) wOk
    rfl (by decide) rfl (by decide) rfl

/-- C6: when the resolved transition's target declares an initial substate
`c`: a successful `Fire` commits `c` (not the declared target); if `c` has an
entry hook it is the last invocation of the call, after all entry-phase
hooks; and if `c`'s entry hook fails after every earlier phase succeeded,
`Fire` returns that hook's error and the state is unchanged. -/
theorem C6_initial_substate (spec : Spec E D) (cur trigger : Nat) (data : D)
    (fuel ms : Nat) (t : Transition E D) (c : Nat)
    (hb : bubble spec trigger cur fuel = .found ms t)
    (hg : checkGuard t.Guard data = none)
    (hinit : spec.initialOf t.Next = some c) :
    ((Fire spec cur trigger data fuel).error = none →
      (Fire spec cur trigger data fuel).newState = c)
    ∧ ((Fire spec cur trigger data fuel).error = none →
      ∀ f, (spec.hooksOf c).OnEntry = some f →
        ∃ pre, (Fire spec cur trigger data fuel).trace = pre ++ [.entry c])
    ∧ ∀ f e, (spec.hooksOf c).OnEntry = some f → f data = some e →
        (exitsRun spec cur t data).2 = none →
        (runAction t data).2 = none →
        (entriesRun spec cur t data).2 = none →
        (Fire spec cur trigger data fuel).error = some (.entryHookFailed c e)
        ∧ (Fire spec cur trigger data fuel).newState = cur := by
  have hF := Fire_eq_of_found spec cur trigger data fuel ms t hb hg
  rw [hF]
  refine ⟨?_, ?_, ?_⟩
  · intro h
    exact ((fireCore_success spec cur t data h).1).trans
      (by simp [commitTarget, hinit])
  · intro h f hf
    obtain ⟨_, htr⟩ := fireCore_success spec cur t data h
    have hit : initTrace spec t = [.entry c] := by
      simp [initTrace, hinit, hasEntry, hf]
    rw [htr, hit]
    refine ⟨(exitStates spec (fireLcaO spec cur t) (sourceChain spec cur)).map
        Event.exit
      ++ (actionTrace t
        ++ (entryStates spec (fireLcaO spec cur t)
            (enteredStates spec cur t)).map Event.entry), ?_⟩
    simp [List.append_assoc]
  · intro f e hf hfe hex hac hen
    have hfc : fireCore spec cur t data =
        finishInitial spec cur t data
          ((exitsRun spec cur t data).1 ++ (runAction t data).1
            ++ (entriesRun spec cur t data).1) := by
      simp [fireCore, hex, hac, hen]
    rw [hfc, finishInitial]
    simp [hinit, hf, hfe]

/-- Witness for C6 on `wInit`: firing `0` from `0` targets `1`, which
declares initial substate `2`; the final state is `2` and `2`'s entry hook
is the last invocation. -/
theorem C6_witness :
    (Fire wInit 0 0 0 10).newState = 2
    ∧ ∃ pre, (Fire wInit 0 0 0 10).trace = pre ++ [Event.entry 2] := by
  have h := C6_initial_substate wInit 0 0 0 10 0 (wInit.transitionAt 0 0) 2
    rfl rfl rfl
  exact ⟨h.1 rfl, h.2.1 rfl wOk rfl⟩

/-- C9: initial-substate redirection is single-level: when the target
declares initial substate `c`, a successful `Fire` commits exactly `c` even
when `c` declares its own initial substate `g`, and `g`'s entry hook is not
invoked (for `g` distinct from `c` and not on the target chain, as the
hierarchy invariant guarantees). -/
theorem C9_single_level_redirect (spec : Spec E D) (cur trigger : Nat)
    (data : D) (fuel ms : Nat) (t : Transition E D) (c g : Nat)
    (hb : bubble spec trigger cur fuel = .found ms t)
    (hgd : checkGuard t.Guard data = none)
    (hinit : spec.initialOf t.Next = some c)
    (hinner : spec.initialOf c = some g)
    (hsucc : (Fire spec cur trigger data fuel).error = none) :
    (Fire spec cur trigger data fuel).newState = c
    ∧ (g ≠ c → g ∉ targetChain spec t →
        Event.entry g ∉ (Fire spec cur trigger data fuel).trace) := by
  have hF := Fire_eq_of_found spec cur trigger data fuel ms t hb hgd
  rw [hF] at hsucc ⊢
  obtain ⟨hstate, htr⟩ := fireCore_success spec cur t data hsucc
  refine ⟨hstate.trans (by simp [commitTarget, hinit]), ?_⟩
  intro hgc hgtc hmem
  rw [htr] at hmem
  rcases List.mem_append.mp hmem with hm | hm
  · rcases List.mem_append.mp hm with hm' | hm'
    · rcases List.mem_append.mp hm' with hm'' | hm''
      · obtain ⟨a, _, heq⟩ := List.mem_map.mp hm''
        simp at heq
      · rw [actionTrace] at hm''
        match hact : t.Action with
        | none => rw [hact] at hm''; simp at hm''
        | some a => rw [hact] at hm''; simp at hm''
    · obtain ⟨a, ha, heq⟩ := List.mem_map.mp hm'
      have hag : a = g := by injection heq
      subst hag
      have h1 : a ∈ enteredStates spec cur t :=
        (List.mem_filter.mp (List.mem_filter.mp ha).1).1
      have h2 : a ∈ targetChain spec t := by
        simp only [enteredStates] at h1
        exact List.mem_of_mem_take (List.mem_reverse.mp h1)
      exact hgtc h2
  · simp only [initTrace, hinit] at hm
    by_cases hc : hasEntry spec c = true
    · simp [hc] at hm
      exact hgc hm
    · simp [hc] at hm

/-- Witness for C9 on `wInit`: target `1` declares initial substate `2`, and
`2` declares initial substate `3`; the final state is `2`, and `3` is never
entered. -/
theorem C9_witness :
    (Fire wInit 0 0 0 10).newState = 2
    ∧ Event.entry 3 ∉ (Fire wInit 0 0 0 10).trace := by
  have h := C9_single_level_redirect wInit 0 0 0 10 0 (wInit.transitionAt 0 0)
    2 3 rfl rfl rfl rfl rfl
  exact ⟨h.1, h.2 (by decide) (by decide)⟩

/-- C10: a self-transition — the table entry at `cur` is valid and targets
`cur` itself — whose guard accepts, and whose exit hook and action succeed,
exits and re-enters the state: the state's own exit hook is invoked first,
then the action, then its own entry hook. The LCA scan skips the source leaf
at index 0, so `cur` is never chosen as the LCA (under the acyclicity
hypothesis that `cur` does not reappear in its own ancestor chain). -/
theorem C10_self_transition (spec : Spec E D) (cur trigger : Nat) (data : D)
    (fuel : Nat) (t : Transition E D) (f gk : D → Option E)
    (ht : spec.transitionAt cur trigger = t)
    (hv : t.Valid = true)
    (hself : t.Next = cur)
    (hnodup : ∀ x ∈ (spec.readHierarchy cur).tail, x ≠ cur)
    (hg : checkGuard t.Guard data = none)
    (hx : (spec.hooksOf cur).OnExit = some f) (hfx : f data = none)
    (ha : (runAction t data).2 = none)
    (he : (spec.hooksOf cur).OnEntry = some gk) :
    ∃ tr2, (Fire spec cur trigger data (fuel + 1)).trace =
      Event.exit cur :: (actionTrace t ++ Event.entry cur :: tr2) := by
  have hb : bubble spec trigger cur (fuel + 1) = .found cur t := by
    rw [← ht] at hv
    rw [bubble_found_of_valid spec trigger cur fuel hv, ht]
  rw [Fire_eq_of_found spec cur trigger data (fuel + 1) cur t hb hg]
  obtain ⟨rest, hchain⟩ := readHierarchy_cons spec cur
  have htc : targetChain spec t = cur :: rest := by
    rw [targetChain, hself, hchain]
  have hsc : sourceChain spec cur = cur :: rest := by
    rw [sourceChain, hchain]
  -- Compute the LCA, the exit run and the visited entry states in the two
  -- cases on the tail of the chain.
  have hkey : exitsRun spec cur t data = ([Event.exit cur], none)
      ∧ (entriesRun spec cur t data).1 = [Event.entry cur] := by
    match hr : rest with
    | [] =>
      have hlca : fireLCA spec cur t = none := by
        rw [fireLCA, hsc, htc]
        simp [findLCA, lcaScan]
      have hlcaO : fireLcaO spec cur t = none := by
        rw [fireLcaO, hlca]; rfl
      have hent : enteredStates spec cur t = [cur] := by
        simp only [enteredStates, hlca, htc]
        simp
      constructor
      · rw [exitsRun, hlcaO, hsc]
        simp [runExits, hx, hfx]
      · rw [entriesRun, hlcaO, hent]
        cases hgk : gk data <;> simp [runEntries, he, hgk]
    | p :: rest' =>
      have hp : p ≠ cur := by
        refine hnodup p ?_
        rw [hchain]
        simp
      have hpc : ¬ (cur = p) := fun h => hp h.symm
      have hpcs : ¬ ((some p : Option Nat) = some cur) := by simp [hp]
      have hlca : fireLCA spec cur t = some (p, 1) := by
        rw [fireLCA, hsc, htc]
        simp [findLCA, lcaScan, lcaScanTarget, hpc]
      have hlcaO : fireLcaO spec cur t = some p := by
        rw [fireLcaO, hlca]; rfl
      have hent : enteredStates spec cur t = [p, cur] := by
        simp only [enteredStates, hlca, htc]
        simp [List.take]
      constructor
      · rw [exitsRun, hlcaO, hsc]
        simp [runExits, hpcs, hx, hfx]
      · rw [entriesRun, hlcaO, hent]
        cases hgk : gk data <;> simp [runEntries, hpcs, he, hgk]
  obtain ⟨hexr, henr1⟩ := hkey
  have hex2 : (exitsRun spec cur t data).2 = none := by rw [hexr]
  have hex1 : (exitsRun spec cur t data).1 = [Event.exit cur] := by rw [hexr]
  cases hen2 : (entriesRun spec cur t data).2 with
  | some e =>
    refine ⟨[], ?_⟩
    have hfc : fireCore spec cur t data =
        ⟨some e, cur, (exitsRun spec cur t data).1 ++ (runAction t data).1
          ++ (entriesRun spec cur t data).1⟩ := by
      simp [fireCore, hex2, ha, hen2]
    rw [hfc, hex1, henr1, runAction_fst]
    simp
  | none =>
    have hfc : fireCore spec cur t data =
        finishInitial spec cur t data
          ((exitsRun spec cur t data).1 ++ (runAction t data).1
            ++ (entriesRun spec cur t data).1) := by
      simp [fireCore, hex2, ha, hen2]
    rcases finishInitial_cases spec cur t data
        ((exitsRun spec cur t data).1 ++ (runAction t data).1
          ++ (entriesRun spec cur t data).1) with ⟨c, e, _, hfin⟩ | hfin
    · refine ⟨[Event.entry c], ?_⟩
      rw [hfc, hfin, hex1, henr1, runAction_fst]
      simp [List.append_assoc]
    · refine ⟨initTrace spec t, ?_⟩
      rw [hfc, hfin, hex1, henr1, runAction_fst]
      simp [List.append_assoc]

/-- Witness for C10 on `wHier`: trigger `3` is a self-transition on state
`2`; its trace starts with `exit 2` followed by `entry 2`. -/
theorem C10_witness :
    ∃ tr2, (Fire wHier 2 3 0 10).trace =
      Event.exit 2 :: (actionTrace (wHier.transitionAt 2 3)
        ++ Event.entry 2 :: tr2) :=
  C10_self_transition wHier 2 3 0 9 (wHier.transitionAt 2 3) wOk wOk
    rfl rfl rfl (by decide) rfl rfl rfl rfl rfl

/-- C7 counterexample: the claim says settings of all `State(s)` calls for
the same state accumulate, a later call not discarding an earlier one's
settings. In the concrete build `State(0).OnEntry(h)` followed by
`State(0).OnExit(h)`, the first call sets an `OnEntry` hook, the build
succeeds, yet the built record for state `0` has no `OnEntry` hook (while it
does have the second call's `OnExit` hook): the later call discarded the
earlier call's hook setting. -/
theorem C7_counterexample :
    NewSpecBuilder Nat Nat 1 1 = some c7b
    ∧ c7sb1.hooks.OnEntry = some wOk
    ∧ (c7spec.map fun spec => ((spec.hooksOf 0).OnEntry).isSome) = some false
    ∧ (c7spec.map fun spec => ((spec.hooksOf 0).OnExit).isSome) = some true :=
  ⟨rfl, rfl, rfl, rfl⟩

/-- C7 (amended): two `State(s)` call chains for the same state `s` write
into a single record; parent and initial-substate settings accumulate across
the calls (the later call overrides them only when it sets them), but the
hooks slot is overwritten unconditionally by each call's own hooks record —
the last call wins for hooks, and hook settings made by earlier calls for
the same state are discarded. -/
theorem C7_state_calls_amended (numS numT : Nat) (b : SpecBuilder E D)
    (hb : NewSpecBuilder E D numS numT = some b)
    (sb1 sb2 : StateBuilderRec E D) (s : Nat)
    (h1 : sb1.state = s) (h2 : sb2.state = s) (hs : s < numS)
    (spec : Spec E D) (hspec : ((b.State sb1).State sb2).Build = some spec) :
    spec.hooksOf s = sb2.hooks
    ∧ spec.parentOf s = (if sb2.isParentSet then some sb2.parent
        else if sb1.isParentSet then some sb1.parent else none)
    ∧ spec.initialOf s = (if sb2.isInitialStateSet then some sb2.initialState
        else if sb1.isInitialStateSet then some sb1.initialState else none) := by
  subst h1
  rw [NewSpecBuilder] at hb
  by_cases h0 : numS = 0 ∨ numT = 0
  · rw [if_pos h0] at hb
    exact absurd hb (by simp)
  · rw [if_neg h0] at hb
    injection hb with hb
    subst hb
    have hfields := Build_eq_some hspec
    subst hfields
    simp only [SpecBuilder.State, List.nil_append, List.singleton_append,
      List.foldl_cons, List.foldl_nil, StateBuilderRec.done,
      Spec.hooksOf, Spec.parentOf, Spec.initialOf]
    rw [h2]
    refine ⟨?_, ?_, ?_⟩
    · exact setTwice_getD _ _ _ _ _
        (by simp only [List.length_replicate]; exact hs)
    · exact condSet2_getD (List.replicate numS none) sb1.state
        sb1.isParentSet sb2.isParentSet sb1.parent sb2.parent
        (by simp only [List.length_replicate]; exact hs)
        (getD_replicate_lt _ _ _ _ hs)
    · exact condSet2_getD (List.replicate numS none) sb1.state
        sb1.isInitialStateSet sb2.isInitialStateSet sb1.initialState
        sb2.initialState
        (by simp only [List.length_replicate]; exact hs)
        (getD_replicate_lt _ _ _ _ hs)

/-- Witness for the amended C7: first call sets `OnEntry` and parent `0`,
second call sets only `OnExit`; the built record keeps the parent from the
first call but only the second call's hooks. -/
theorem C7_witness :
    c7wspec.hooksOf 0 = c7wsb2.hooks
    ∧ c7wspec.parentOf 0 = some 0
    ∧ c7wspec.initialOf 0 = none := by
  have h := C7_state_calls_amended 1 1 c7b rfl c7wsb1 c7wsb2 0 rfl rfl
    (by decide) c7wspec rfl
  refine ⟨h.1, ?_, ?_⟩
  · rw [h.2.1]; rfl
  · rw [h.2.2]; rfl

end FSM
